import Mathlib

/-!
Verification of the StarGAN v2 training orchestration code (core/solver.py)
against its natural-language specification.

Modelling conventions:
* Tensors are flat lists of exact rational values together with an autograd
  tracking flag; detaching a tensor clears the flag.  Scalar (0-dim) loss
  tensors are modelled directly as rationals, so the value stored in a loss
  breakdown record by item() coincides with the scalar itself.
* The networks (generator, discriminator, mapping network, style encoder,
  FAN heatmap extractor) are external collaborators and are passed in as
  abstract functions, exactly as the source receives them through nets.
* The pointwise sigmoid cross-entropy scalar used by the external torch
  primitive F.binary_cross_entropy_with_logits is kept abstract in a small
  environment record; torch internals are out of scope for the spec.
* Python statements that can raise (the assert in compute_d_loss, the tuple
  unpacking of z_trgs and x_refs in compute_g_loss) are modelled with
  Except String; a raised exception is an error value.
-/

namespace StarGAN

/-- A tensor: a flat list of exact rational entries plus the autograd
tracking flag of the corresponding torch tensor. -/
structure Tensor where
  val : List ℚ
  requiresGrad : Bool
deriving DecidableEq, Repr

/-- torch detach: same values, gradient tracking cleared. -/
def Tensor.detach (t : Tensor) : Tensor :=
  ⟨t.val, false⟩

/-- x.requires_grad_(): same values, gradient tracking enabled
(solver.py line 205). -/
def Tensor.requireGrad (t : Tensor) : Tensor :=
  ⟨t.val, true⟩

/-- Elementwise tensor subtraction; gradients flow from either operand. -/
def Tensor.sub (a b : Tensor) : Tensor :=
  ⟨(a.val.zip b.val).map fun p => p.1 - p.2, a.requiresGrad || b.requiresGrad⟩

/-- torch.abs, elementwise. -/
def Tensor.abs (t : Tensor) : Tensor :=
  ⟨t.val.map fun x => |x|, t.requiresGrad⟩

/-- Mean of a list of rationals (empty list gives 0, as division by zero). -/
def listMean (l : List ℚ) : ℚ :=
  l.sum / (l.length : ℚ)

/-- torch.mean reduced to a scalar. -/
def Tensor.mean (t : Tensor) : ℚ :=
  listMean t.val

/-- torch.full_like(logits, fill_value=target): constant tensor of the same
length (solver.py line 288). -/
def full_like (t : Tensor) (v : ℚ) : Tensor :=
  ⟨t.val.map fun _ => v, false⟩

/-- External torch primitive kept abstract: the pointwise scalar sigmoid
cross-entropy underlying F.binary_cross_entropy_with_logits.  The spec
(section 1) places tensor-library internals out of scope, so the solver code
is verified for an arbitrary pointwise function. -/
structure TorchEnv where
  bceWithLogits : ℚ → ℚ → ℚ

/-- F.binary_cross_entropy_with_logits with mean reduction: the mean of the
pointwise scalar cross-entropy over corresponding entries. -/
def binary_cross_entropy_with_logits (env : TorchEnv) (input target : Tensor) : ℚ :=
  listMean ((input.val.zip target.val).map fun p => env.bceWithLogits p.1 p.2)

/-- adv_loss (solver.py lines 286-290): assert target in [1, 0]; build the
constant target tensor with full_like; return the mean sigmoid
cross-entropy.  The assert is modelled as an error value. -/
def adv_loss (env : TorchEnv) (logits : Tensor) (target : ℚ) : Except String ℚ :=
  if target = 1 ∨ target = 0 then
    Except.ok (binary_cross_entropy_with_logits env logits (full_like logits target))
  else
    Except.error "assert target in [1, 0]"

/-- The network ensemble as received by the loss functions: abstract
forward functions for each role (labels are natural numbers indexing the
finite domain set). -/
structure Nets where
  generator : Tensor → Tensor → Option Tensor → Tensor
  discriminator : Tensor → ℕ → Tensor
  mapping_network : Tensor → ℕ → Tensor
  style_encoder : Tensor → ℕ → Tensor
  fan_get_heatmap : Tensor → Tensor

/-- The hyperparameters of args that the loss functions and the decay
schedule read. -/
structure Args where
  lambda_reg : ℚ
  lambda_sty : ℚ
  lambda_ds : ℚ
  lambda_cyc : ℚ
  w_hpf : ℚ
  ds_epoch : ℕ
deriving DecidableEq, Repr

/-- The Munch returned by compute_d_loss: breakdown terms real, fake, reg
(solver.py lines 223-225). -/
structure DLosses where
  real : ℚ
  fake : ℚ
  reg : ℚ
deriving DecidableEq, Repr

/-- The Munch returned by compute_g_loss: breakdown terms adv, sty, ds, cyc
(solver.py lines 275-278). -/
structure GLosses where
  adv : ℚ
  sty : ℚ
  ds : ℚ
  cyc : ℚ
deriving DecidableEq, Repr

/-- compute_d_loss (solver.py lines 202-225).  The leading
assert (z_trg is None) != (x_ref is None) fails before any network forward
pass when not exactly one style source is supplied.  The torch.no_grad block
is modelled by detaching the tensors it produces. -/
def compute_d_loss (env : TorchEnv) (nets : Nets) (args : Args) (x_real : Tensor)
    (y_org y_trg : ℕ) (z_trg : Option Tensor) (x_ref : Option Tensor)
    (masks : Option Tensor) : Except String (ℚ × DLosses) :=
  if (z_trg.isNone != x_ref.isNone) = true then
    let xr := Tensor.requireGrad x_real
    let out := nets.discriminator xr y_org
    match adv_loss env out 1 with
    | Except.error e => Except.error e
    | Except.ok loss_real =>
      let loss_reg : ℚ := 0
      let s_trg := Tensor.detach (match z_trg with
        | some z => nets.mapping_network z y_trg
        | none => nets.style_encoder (x_ref.getD x_real) y_trg)
      let x_fake := Tensor.detach (nets.generator xr s_trg masks)
      let out2 := nets.discriminator x_fake y_trg
      match adv_loss env out2 0 with
      | Except.error e => Except.error e
      | Except.ok loss_fake =>
        Except.ok (loss_real + loss_fake + args.lambda_reg * loss_reg,
          ⟨loss_real, loss_fake, 0⟩)
  else
    Except.error "assert (z_trg is None) != (x_ref is None)"

/-- Body of compute_g_loss after the two unpacking statements
(solver.py lines 238-278). -/
def compute_g_loss_body (env : TorchEnv) (nets : Nets) (args : Args) (x_real : Tensor)
    (y_org y_trg : ℕ) (z_trg z_trg2 x_ref _x_ref2 : Tensor)
    (masks : Option Tensor) : Except String (ℚ × GLosses) :=
  let s_trg := nets.mapping_network z_trg y_trg
  let x_fake := nets.generator x_real s_trg masks
  let out := nets.discriminator x_fake y_trg
  match adv_loss env out 1 with
  | Except.error e => Except.error e
  | Except.ok loss_adv =>
    let s_pred := nets.style_encoder x_fake y_trg
    let s_ref := nets.style_encoder x_ref y_trg
    let loss_sty := Tensor.mean (Tensor.abs (Tensor.sub s_pred s_ref))
    let s_trg2 := nets.mapping_network z_trg2 y_trg
    let x_fake2 := Tensor.detach (nets.generator x_real s_trg2 masks)
    let loss_ds := Tensor.mean (Tensor.abs (Tensor.sub x_fake x_fake2))
    let masks2 := if args.w_hpf > 0 then some (nets.fan_get_heatmap x_fake) else none
    let s_org := nets.style_encoder x_real y_org
    let x_rec := nets.generator x_fake s_org masks2
    let loss_cyc := Tensor.mean (Tensor.abs (Tensor.sub x_rec x_real))
    Except.ok (loss_adv + args.lambda_sty * loss_sty
        - args.lambda_ds * loss_ds + args.lambda_cyc * loss_cyc,
      ⟨loss_adv, loss_sty, loss_ds, loss_cyc⟩)

/-- compute_g_loss (solver.py lines 229-278).  The statements
z_trg, z_trg2 = z_trgs and x_ref, x_ref2 = x_refs unpack unconditionally:
a None argument raises TypeError, a sequence of the wrong length raises
ValueError; both are modelled as error values. -/
def compute_g_loss (env : TorchEnv) (nets : Nets) (args : Args) (x_real : Tensor)
    (y_org y_trg : ℕ) (z_trgs : Option (List Tensor)) (x_refs : Option (List Tensor))
    (masks : Option Tensor) : Except String (ℚ × GLosses) :=
  match z_trgs with
  | none => Except.error "TypeError: cannot unpack non-iterable NoneType object"
  | some zl =>
    match zl with
    | [z_trg, z_trg2] =>
      (match x_refs with
      | none => Except.error "TypeError: cannot unpack non-iterable NoneType object"
      | some xl =>
        match xl with
        | [x_ref, x_ref2] =>
          compute_g_loss_body env nets args x_real y_org y_trg z_trg z_trg2 x_ref x_ref2 masks
        | _ => Except.error "ValueError: unpacking x_refs")
    | _ => Except.error "ValueError: unpacking z_trgs"

/-- torch.lerp(start, end, weight) = start + weight * (end - start). -/
def torchLerp (start finish weight : ℚ) : ℚ :=
  start + weight * (finish - start)

/-- moving_average (solver.py lines 281-283): for every zipped pair of
parameters of the live model and of the shadow model, the shadow parameter
is overwritten with torch.lerp(param.data, param_test.data, beta).  The
result is the pair (live parameters, shadow parameters) after the call. -/
def moving_average (model model_test : List ℚ) (beta : ℚ := 0.999) :
    List ℚ × List ℚ :=
  (model, (model.zip model_test).map fun p => torchLerp p.1 p.2 beta)

/-- One update of args.lambda_ds as executed at the end of every batch
iteration of Solver.train (solver.py lines 159-160):
if args.lambda_ds > 0: args.lambda_ds -= initial_lambda_ds / args.ds_epoch.
initial_lambda_ds is the value of args.lambda_ds captured before the loop
(solver.py line 105).  This is the exact-rational idealization, used for the
decay-cadence results whose traces are float-exact; the binary64 behaviour
of the same two source lines is modelled separately by lambdaStepF below. -/
def lambdaStep (initial_lambda_ds : ℚ) (ds_epoch : ℕ) (l : ℚ) : ℚ :=
  if l > 0 then l - initial_lambda_ds / (ds_epoch : ℚ) else l

/-- Value of args.lambda_ds after n batch iterations of training, starting
from its initial value.  The decrement statement sits inside the inner
batch loop of Solver.train (lines 117-160), so it runs once per batch. -/
def lambdaAfter (initial_lambda_ds : ℚ) (ds_epoch : ℕ) : ℕ → ℚ
  | 0 => initial_lambda_ds
  | n + 1 => lambdaStep initial_lambda_ds ds_epoch (lambdaAfter initial_lambda_ds ds_epoch n)

/-- Value of args.lambda_ds after e full epochs of iters_per_epoch batches
each (Solver.train, lines 114-160). -/
def lambdaAfterEpochs (initial_lambda_ds : ℚ) (ds_epoch iters_per_epoch e : ℕ) : ℚ :=
  lambdaAfter initial_lambda_ds ds_epoch (iters_per_epoch * e)

/-- Round to nearest integer with ties to even: the rounding binary64
applies to the scaled mantissa.  q is the floor, f the fractional part;
below one half rounds down, above one half rounds up, and an exact half
goes to the even neighbour. -/
def roundMantissa (y : ℚ) : ℤ :=
  let q := ⌊y⌋
  let f := y - (q : ℚ)
  if f < 1/2 then q
  else if 1/2 < f then q + 1
  else if q % 2 = 0 then q else q + 1

/-- Binary64 (Python float) rounding of an exact rational to 53 significant
bits, round to nearest with ties to even, modelled on the normal range
(every value in the traces considered is a normal float): the absolute value
is scaled into the binade of 53-bit integers, the scaled mantissa is rounded
to an integer, and sign and scale are restored. -/
def roundF (x : ℚ) : ℚ :=
  if x = 0 then 0
  else
    (if 0 < x then 1 else -1)
      * ((roundMantissa (|x| / 2 ^ (Int.log 2 |x| - 52)) : ℤ) : ℚ)
      * 2 ^ (Int.log 2 |x| - 52)

/-- Binary64 division: IEEE 754 requires the exact quotient to be rounded
once. -/
def floatDiv (a b : ℚ) : ℚ :=
  roundF (a / b)

/-- Binary64 subtraction: IEEE 754 requires the exact difference to be
rounded once. -/
def floatSub (a b : ℚ) : ℚ :=
  roundF (a - b)

/-- One per-batch update of args.lambda_ds under Python float semantics
(solver.py lines 159-160): the comparison with 0 is exact on floats, and
the subtraction of the rate is a binary64 subtraction. -/
def lambdaStepF (rate l : ℚ) : ℚ :=
  if l > 0 then floatSub l rate else l

/-- Value of args.lambda_ds after n batch iterations under float
semantics.  The rate initial_lambda_ds / args.ds_epoch is itself a
binary64 quotient, recomputed identically on every iteration, so it is a
fixed parameter. -/
def lambdaAfterF (initial rate : ℚ) : ℕ → ℚ
  | 0 => initial
  | n + 1 => lambdaStepF rate (lambdaAfterF initial rate n)

/-- A rational exactly representable as a binary64 float of the normal
range: zero, or a 53-bit integer mantissa times a power of two. -/
def FpRep (x : ℚ) : Prop :=
  x = 0 ∨ ∃ m e : ℤ, 2 ^ 52 ≤ |m| ∧ |m| < 2 ^ 53 ∧ x = (m : ℚ) * 2 ^ e

/-- The all_losses mapping as rebuilt from scratch on one batch
(solver.py lines 145-149): the discriminator breakdown under D/latent_
keys, the generator breakdown under G/latent_ keys, then the current
lambda_ds, in dict insertion order. -/
def buildAllLosses (d : DLosses) (g : GLosses) (lambda_ds : ℚ) : List (String × ℚ) :=
  [("D/latent_real", d.real), ("D/latent_fake", d.fake), ("D/latent_reg", d.reg),
   ("G/latent_adv", g.adv), ("G/latent_sty", g.sty), ("G/latent_ds", g.ds),
   ("G/latent_cyc", g.cyc), ("G/lambda_ds", lambda_ds)]

/-- Contents of the local variable all_losses after the batch loop of one
epoch, given the breakdowns and the lambda_ds value seen on each batch:
the variable is reassigned to a fresh mapping on every batch
(solver.py line 145), so after the loop it holds the mapping built from
the final batch; with no batches it is unbound (none). -/
def epochAllLosses (batches : List (DLosses × GLosses × ℚ)) :
    Option (List (String × ℚ)) :=
  batches.foldl (fun _ b => some (buildAllLosses b.1 b.2.1 b.2.2)) none

/-- The mapping handed to wandb.log at the end of an epoch
(solver.py lines 163-164): emitted only when epoch % wandb_log == 0, and
then it is the post-loop value of all_losses. -/
def wandbEmission (wandb_log epoch : ℕ) (batches : List (DLosses × GLosses × ℚ)) :
    Option (List (String × ℚ)) :=
  if epoch % wandb_log = 0 then epochAllLosses batches else none

/-- Modelled from the spec: the emission the spec describes, namely the
loss values accumulated (summed) over all batches of the epoch, tagged by
phase and term.  Stated only to be compared with the emission the code
produces; it is not a translation of any source line. -/
def accumulatedLossesSpec (batches : List (DLosses × GLosses × ℚ)) : List (String × ℚ) :=
  [("D/latent_real", (batches.map fun b => b.1.real).sum),
   ("D/latent_fake", (batches.map fun b => b.1.fake).sum),
   ("D/latent_reg", (batches.map fun b => b.1.reg).sum),
   ("G/latent_adv", (batches.map fun b => b.2.1.adv).sum),
   ("G/latent_sty", (batches.map fun b => b.2.1.sty).sum),
   ("G/latent_ds", (batches.map fun b => b.2.1.ds).sum),
   ("G/latent_cyc", (batches.map fun b => b.2.1.cyc).sum),
   ("G/lambda_ds", (batches.map fun b => b.2.2).sum)]

/-- The run mode selected on the command line. -/
inductive Mode
  | train
  | sample
  | evaluate
deriving DecidableEq, Repr

/-- Which collection of parameters a registered checkpoint handler holds. -/
inductive ParamGroup
  | nets
  | nets_ema
  | optims
deriving DecidableEq, Repr

/-- One registered checkpoint handler: the file name template it writes and
the parameter collection registered with it. -/
structure CheckpointIO where
  fname_template : String
  group : ParamGroup
deriving DecidableEq, Repr

/-- The self.ckptios list built in Solver.__init__ (solver.py lines 58-61
and 72): in train mode a handler for the live networks and one for the
optimizers (the nets_ema handler is commented out); in every other mode a
single handler for the EMA networks only. -/
def solverCkptios (mode : Mode) : List CheckpointIO :=
  if mode = Mode.train then
    [⟨"\x7b:06d\x7d_nets.ckpt", ParamGroup.nets⟩,
     ⟨"\x7b:06d\x7d_optims.ckpt", ParamGroup.optims⟩]
  else
    [⟨"\x7b:06d\x7d_nets_ema.ckpt", ParamGroup.nets_ema⟩]

/-- Modelled from the spec: the internals of the external Checkpoint
Manager (core/checkpoint.py is not among the sources).  Per section 6,
save(step) serializes every registered collection keyed by step;
Solver._save_checkpoint (solver.py lines 82-84) calls save(step) on every
registered handler, so one save point is the list of
(file name template, step, registered group) writes. -/
def saveCheckpoint (mode : Mode) (step : ℕ) : List (String × ℕ × ParamGroup) :=
  (solverCkptios mode).map fun c => (c.fname_template, step, c.group)

/-- Modelled from the spec: load(step) of the external Checkpoint Manager
restores every registered collection keyed by step (section 6);
Solver._load_checkpoint (solver.py lines 86-88) calls load(step) on every
registered handler, so one load is the list of
(file name template, step, registered group) reads. -/
def loadCheckpoint (mode : Mode) (step : ℕ) : List (String × ℕ × ParamGroup) :=
  (solverCkptios mode).map fun c => (c.fname_template, step, c.group)

/-- The two network ensembles held by a Solver: self.nets (live, trainable)
and self.nets_ema (the EMA shadow ensemble), as returned by build_model
(solver.py line 39). -/
structure Solver where
  nets : Nets
  nets_ema : Nets

/-- The ensemble Solver.sample passes to the external collaborators
utils.translate_using_reference and utils.video_ref (solver.py
lines 174-190): the local name nets_ema is bound by the statement
nets_ema = self.nets on line 177, and that binding is what is used. -/
def Solver.sampleEnsemble (self : Solver) : Nets :=
  let nets_ema := self.nets
  nets_ema

/-- Concrete pointwise cross-entropy for witnesses: squared difference. -/
def envC : TorchEnv :=
  ⟨fun x t => (x - t) * (x - t)⟩

/-- A network ensemble all of whose forward functions return the given
constant tensor; used to build concrete witnesses. -/
def constNets (t : Tensor) : Nets :=
  ⟨fun _ _ _ => t, fun _ _ => t, fun _ _ => t, fun _ _ => t, fun _ => t⟩

/-- Concrete ensemble returning the constant tensor [0]. -/
def netsA : Nets :=
  constNets ⟨[0], false⟩

/-- Concrete ensemble returning the constant tensor [1]. -/
def netsB : Nets :=
  constNets ⟨[1], false⟩

/-- Concrete hyperparameters for witnesses: all loss weights zero, w_hpf
zero, ds_epoch 1. -/
def argsC : Args :=
  ⟨0, 0, 0, 0, 0, 1⟩

/-- Concrete input tensor for witnesses. -/
def tC : Tensor :=
  ⟨[1], false⟩

/-- Concrete first-batch loss record for the logging development. -/
def batch0C : DLosses × GLosses × ℚ :=
  (⟨1, 0, 0⟩, ⟨0, 0, 0, 0⟩, 0)

/-- Concrete second-batch loss record for the logging development. -/
def batch1C : DLosses × GLosses × ℚ :=
  (⟨3, 0, 0⟩, ⟨0, 0, 0, 0⟩, 0)

/-- adv_loss at the literal target 1 passes its assert and returns the mean
cross-entropy against the all-ones target tensor. -/
theorem adv_loss_target_one (env : TorchEnv) (t : Tensor) :
    adv_loss env t 1
      = Except.ok (binary_cross_entropy_with_logits env t (full_like t 1)) := by
  unfold adv_loss
  rw [if_pos (Or.inl rfl)]

/-- adv_loss at the literal target 0 passes its assert and returns the mean
cross-entropy against the all-zeros target tensor. -/
theorem adv_loss_target_zero (env : TorchEnv) (t : Tensor) :
    adv_loss env t 0
      = Except.ok (binary_cross_entropy_with_logits env t (full_like t 0)) := by
  unfold adv_loss
  rw [if_pos (Or.inr rfl)]

/-- The mean of a list of nonnegative rationals is nonnegative. -/
theorem listMean_nonneg (l : List ℚ) (h : ∀ x ∈ l, 0 ≤ x) : 0 ≤ listMean l :=
  div_nonneg (List.sum_nonneg h) (Nat.cast_nonneg _)

/-- The mean of the elementwise absolute value of any tensor is
nonnegative. -/
theorem absMean_nonneg (t : Tensor) : 0 ≤ Tensor.mean (Tensor.abs t) := by
  apply listMean_nonneg
  intro x hx
  simp only [Tensor.abs, List.mem_map] at hx
  obtain ⟨y, _, rfl⟩ := hx
  exact abs_nonneg y

/-- Closed form of the lambda_ds schedule in exact arithmetic: after n
per-batch decrements the value is the initial value minus min n ds_epoch
steps of size initial / ds_epoch. -/
theorem lambdaAfter_eq (initial : ℚ) (d : ℕ) (h0 : 0 ≤ initial) (hd : 0 < d) :
    ∀ n, lambdaAfter initial d n
      = initial - ((min n d : ℕ) : ℚ) * (initial / (d : ℚ)) := by
  have hdQ : (0 : ℚ) < (d : ℚ) := by exact_mod_cast hd
  intro n
  induction n with
  | zero => simp [lambdaAfter]
  | succ n ih =>
    simp only [lambdaAfter, lambdaStep, ih]
    rcases eq_or_lt_of_le h0 with h0e | h0l
    · simp [← h0e]
    · by_cases hn : n < d
      · rw [min_eq_left hn.le, min_eq_left (Nat.succ_le_of_lt hn)]
        have hnd : (n : ℚ) < (d : ℚ) := by exact_mod_cast hn
        have hr : 0 < initial / (d : ℚ) := div_pos h0l hdQ
        have hrw : initial - (n : ℚ) * (initial / (d : ℚ))
            = ((d : ℚ) - (n : ℚ)) * (initial / (d : ℚ)) := by
          field_simp
          ring
        have hpos : 0 < initial - (n : ℚ) * (initial / (d : ℚ)) := by
          rw [hrw]
          exact mul_pos (by linarith) hr
        rw [if_pos hpos]
        push_cast
        ring
      · have hdn : d ≤ n := not_lt.mp hn
        rw [min_eq_right hdn, min_eq_right (Nat.le_succ_of_le hdn)]
        have hzero : initial - ((d : ℕ) : ℚ) * (initial / (d : ℚ)) = 0 := by
          field_simp
        rw [hzero, if_neg (lt_irrefl 0)]

/-- The rounded mantissa lies between the floor and the floor plus one. -/
theorem roundMantissa_bounds (y : ℚ) :
    ⌊y⌋ ≤ roundMantissa y ∧ roundMantissa y ≤ ⌊y⌋ + 1 := by
  simp only [roundMantissa]
  refine ⟨?_, ?_⟩ <;> (repeat' split) <;> omega

/-- A fractional part below one half rounds down to the floor. -/
theorem roundMantissa_lt_half {y : ℚ} (h : y - (⌊y⌋ : ℚ) < 1/2) :
    roundMantissa y = ⌊y⌋ := by
  simp only [roundMantissa]
  rw [if_pos h]

/-- A fractional part above one half rounds up. -/
theorem roundMantissa_gt_half {y : ℚ} (h : 1/2 < y - (⌊y⌋ : ℚ)) :
    roundMantissa y = ⌊y⌋ + 1 := by
  simp only [roundMantissa]
  rw [if_neg (by linarith), if_pos h]

/-- An exact half with an odd floor rounds up to the even neighbour. -/
theorem roundMantissa_half_odd {y : ℚ} (h : y - (⌊y⌋ : ℚ) = 1/2)
    (hodd : ⌊y⌋ % 2 = 1) : roundMantissa y = ⌊y⌋ + 1 := by
  simp only [roundMantissa]
  rw [if_neg (by rw [h]; norm_num), if_neg (by rw [h]; norm_num),
    if_neg (by omega)]

/-- Rounding an integer returns it. -/
theorem roundMantissa_intCast (q : ℤ) : roundMantissa (q : ℚ) = q := by
  simp only [roundMantissa, Int.floor_intCast, sub_self]
  rw [if_pos (by norm_num)]

/-- Ties-to-even rounding to an integer is monotone. -/
theorem roundMantissa_mono {y z : ℚ} (h : y ≤ z) :
    roundMantissa y ≤ roundMantissa z := by
  rcases lt_or_eq_of_le (Int.floor_mono h) with hf | hf
  · calc roundMantissa y ≤ ⌊y⌋ + 1 := (roundMantissa_bounds y).2
      _ ≤ ⌊z⌋ := by omega
      _ ≤ roundMantissa z := (roundMantissa_bounds z).1
  · by_cases h1 : y - (⌊y⌋ : ℚ) < 1/2
    · rw [roundMantissa_lt_half h1, hf]
      exact (roundMantissa_bounds z).1
    · by_cases h3 : 1/2 < z - (⌊z⌋ : ℚ)
      · rw [roundMantissa_gt_half h3]
        calc roundMantissa y ≤ ⌊y⌋ + 1 := (roundMantissa_bounds y).2
          _ = ⌊z⌋ + 1 := by omega
      · have h4 : ((⌊y⌋ : ℤ) : ℚ) = ((⌊z⌋ : ℤ) : ℚ) := by exact_mod_cast hf
        have hyz : y = z := by
          have hy2 : 1/2 ≤ y - (⌊y⌋ : ℚ) := not_lt.mp h1
          have hz2 : z - (⌊z⌋ : ℚ) ≤ 1/2 := not_lt.mp h3
          have : z ≤ y := by linarith
          linarith
        rw [hyz]

/-- Rounding fixes zero. -/
theorem roundF_zero : roundF 0 = 0 := by
  simp [roundF]

/-- Shape of roundF on a positive argument. -/
theorem roundF_pos_def (x : ℚ) (hx : 0 < x) :
    roundF x = ((roundMantissa (x / 2 ^ (Int.log 2 x - 52)) : ℤ) : ℚ)
      * 2 ^ (Int.log 2 x - 52) := by
  simp only [roundF]
  rw [if_neg hx.ne', abs_of_pos hx, if_pos hx, one_mul]

/-- Rounding commutes with negation (the model is sign-symmetric, as is
round to nearest, ties to even). -/
theorem roundF_neg (x : ℚ) : roundF (-x) = -roundF x := by
  rcases lt_trichotomy x 0 with hx | hx | hx
  · simp only [roundF]
    rw [if_neg (by intro h; exact hx.ne (by linarith)), if_neg hx.ne,
      abs_neg, if_pos (by linarith), if_neg (by linarith)]
    ring
  · rw [hx]
    simp [roundF]
  · simp only [roundF]
    rw [if_neg (by intro h; exact hx.ne' (by linarith)), if_neg hx.ne',
      abs_neg, if_neg (by intro h; linarith), if_pos hx]
    ring

/-- The natural-number base two of Int.log, cast to the rationals, is the
rational two. -/
theorem two_nat_cast_zpow (z : ℤ) : (((2 : ℕ) : ℚ)) ^ z = (2 : ℚ) ^ z := by
  norm_num

/-- The scaled absolute value sits in the binade of 53-bit integers. -/
theorem scaledMantissa_bounds (x : ℚ) (hx : 0 < x) :
    (2 : ℚ) ^ (52 : ℤ) ≤ x / 2 ^ (Int.log 2 x - 52) ∧
    x / 2 ^ (Int.log 2 x - 52) < (2 : ℚ) ^ (53 : ℤ) := by
  have hpow : (0 : ℚ) < 2 ^ (Int.log 2 x - 52) := zpow_pos (by norm_num) _
  constructor
  · rw [le_div_iff₀ hpow, ← zpow_add₀ (two_ne_zero)]
    have he : (52 : ℤ) + (Int.log 2 x - 52) = Int.log 2 x := by ring
    rw [he]
    have := Int.zpow_log_le_self (b := 2) (by norm_num) hx
    rwa [two_nat_cast_zpow] at this
  · rw [div_lt_iff₀ hpow, ← zpow_add₀ (two_ne_zero)]
    have he : (53 : ℤ) + (Int.log 2 x - 52) = Int.log 2 x + 1 := by ring
    rw [he]
    have := Int.lt_zpow_succ_log_self (b := 2) (by norm_num) x
    rwa [two_nat_cast_zpow] at this

/-- The binade bounds determine Int.log. -/
theorem log_eq_of_binade {x : ℚ} {e : ℤ} (hx : 0 < x)
    (hb1 : (2 : ℚ) ^ (e + 52) ≤ x) (hb2 : x < (2 : ℚ) ^ (e + 53)) :
    Int.log 2 x = e + 52 := by
  have h1 : e + 52 ≤ Int.log 2 x :=
    (Int.zpow_le_iff_le_log (by norm_num) hx).mp (by rw [two_nat_cast_zpow]; exact hb1)
  have h2 : Int.log 2 x < e + 53 :=
    (Int.lt_zpow_iff_log_lt (by norm_num) hx).mp (by rw [two_nat_cast_zpow]; exact hb2)
  omega

/-- Bounds of the rounding of a positive rational: it stays in the closed
binade of its argument. -/
theorem roundF_pos_bounds (x : ℚ) (hx : 0 < x) :
    (2 : ℚ) ^ Int.log 2 x ≤ roundF x ∧
    roundF x ≤ (2 : ℚ) ^ (Int.log 2 x + 1) := by
  obtain ⟨hlo, hhi⟩ := scaledMantissa_bounds x hx
  have hpow : (0 : ℚ) < 2 ^ (Int.log 2 x - 52) := zpow_pos (by norm_num) _
  have hq1 : (2 : ℤ) ^ 52 ≤ ⌊x / 2 ^ (Int.log 2 x - 52)⌋ := by
    apply Int.le_floor.mpr
    calc (((2 : ℤ) ^ 52 : ℤ) : ℚ) = (2 : ℚ) ^ (52 : ℤ) := by norm_num
      _ ≤ _ := hlo
  have hq2 : ⌊x / 2 ^ (Int.log 2 x - 52)⌋ < (2 : ℤ) ^ 53 := by
    have h1 : ((⌊x / 2 ^ (Int.log 2 x - 52)⌋ : ℤ) : ℚ) < (2 : ℚ) ^ (53 : ℤ) :=
      lt_of_le_of_lt (Int.floor_le _) hhi
    have h2 : ((2 : ℚ) ^ (53 : ℤ)) = (((2 : ℤ) ^ 53 : ℤ) : ℚ) := by norm_num
    rw [h2] at h1
    exact_mod_cast h1
  obtain ⟨hrm1, hrm2⟩ := roundMantissa_bounds (x / 2 ^ (Int.log 2 x - 52))
  rw [roundF_pos_def x hx]
  constructor
  · calc (2 : ℚ) ^ Int.log 2 x
        = (2 : ℚ) ^ (52 : ℤ) * 2 ^ (Int.log 2 x - 52) := by
          rw [← zpow_add₀ (two_ne_zero)]
          congr 1
          ring
      _ ≤ ((roundMantissa (x / 2 ^ (Int.log 2 x - 52)) : ℤ) : ℚ)
            * 2 ^ (Int.log 2 x - 52) := by
          apply mul_le_mul_of_nonneg_right _ hpow.le
          have : ((2 : ℤ) ^ 52 : ℤ) ≤ roundMantissa (x / 2 ^ (Int.log 2 x - 52)) := by
            omega
          calc (2 : ℚ) ^ (52 : ℤ) = (((2 : ℤ) ^ 52 : ℤ) : ℚ) := by norm_num
            _ ≤ _ := by exact_mod_cast this
  · calc ((roundMantissa (x / 2 ^ (Int.log 2 x - 52)) : ℤ) : ℚ)
          * 2 ^ (Int.log 2 x - 52)
        ≤ (2 : ℚ) ^ (53 : ℤ) * 2 ^ (Int.log 2 x - 52) := by
          apply mul_le_mul_of_nonneg_right _ hpow.le
          have : roundMantissa (x / 2 ^ (Int.log 2 x - 52)) ≤ (2 : ℤ) ^ 53 := by
            omega
          calc ((roundMantissa (x / 2 ^ (Int.log 2 x - 52)) : ℤ) : ℚ)
              ≤ (((2 : ℤ) ^ 53 : ℤ) : ℚ) := by exact_mod_cast this
            _ = (2 : ℚ) ^ (53 : ℤ) := by norm_num
      _ = (2 : ℚ) ^ (Int.log 2 x + 1) := by
          rw [← zpow_add₀ (two_ne_zero)]
          congr 1
          ring

/-- Rounding a positive rational gives a positive result. -/
theorem roundF_pos_pos (x : ℚ) (hx : 0 < x) : 0 < roundF x :=
  lt_of_lt_of_le (zpow_pos (by norm_num) _) (roundF_pos_bounds x hx).1

/-- Rounding a negative rational gives a negative result. -/
theorem roundF_neg_neg (x : ℚ) (hx : x < 0) : roundF x < 0 := by
  have h1 : 0 < roundF (-x) := roundF_pos_pos (-x) (by linarith)
  have h2 : roundF (-x) = -roundF x := roundF_neg x
  linarith

/-- Monotonicity of the rounding on positive arguments. -/
theorem roundF_mono_pos {x y : ℚ} (hx : 0 < x) (h : x ≤ y) :
    roundF x ≤ roundF y := by
  have hy : 0 < y := lt_of_lt_of_le hx h
  have hlog : Int.log 2 x ≤ Int.log 2 y := Int.log_mono_right hx h
  rcases lt_or_eq_of_le hlog with hlt | heq
  · calc roundF x ≤ (2 : ℚ) ^ (Int.log 2 x + 1) := (roundF_pos_bounds x hx).2
      _ ≤ (2 : ℚ) ^ Int.log 2 y := zpow_le_zpow_right₀ (by norm_num) (by omega)
      _ ≤ roundF y := (roundF_pos_bounds y hy).1
  · rw [roundF_pos_def x hx, roundF_pos_def y hy, ← heq]
    have hpow : (0 : ℚ) < 2 ^ (Int.log 2 x - 52) := zpow_pos (by norm_num) _
    have hdiv : x / 2 ^ (Int.log 2 x - 52) ≤ y / 2 ^ (Int.log 2 x - 52) :=
      (div_le_div_iff_of_pos_right hpow).mpr h
    exact mul_le_mul_of_nonneg_right
      (by exact_mod_cast roundMantissa_mono hdiv) hpow.le

/-- The binary64 rounding is monotone. -/
theorem roundF_mono {x y : ℚ} (h : x ≤ y) : roundF x ≤ roundF y := by
  rcases lt_trichotomy x 0 with hx | hx | hx
  · rcases lt_trichotomy y 0 with hy | hy | hy
    · have h2 : roundF (-y) ≤ roundF (-x) :=
        roundF_mono_pos (by linarith) (by linarith)
      rw [roundF_neg, roundF_neg] at h2
      linarith
    · rw [hy, roundF_zero]
      exact (roundF_neg_neg x hx).le
    · exact le_trans (roundF_neg_neg x hx).le (roundF_pos_pos y hy).le
  · rw [hx, roundF_zero]
    rcases eq_or_lt_of_le (hx ▸ h) with hy | hy
    · rw [← hy, roundF_zero]
    · exact (roundF_pos_pos y hy).le
  · exact roundF_mono_pos hx h

/-- Rounding fixes a positive 53-bit mantissa times a power of two. -/
theorem roundF_fix_pos (m e : ℤ) (h1 : (2 : ℤ) ^ 52 ≤ m) (h2 : m < (2 : ℤ) ^ 53) :
    roundF ((m : ℚ) * 2 ^ e) = (m : ℚ) * 2 ^ e := by
  have hpow : (0 : ℚ) < 2 ^ e := zpow_pos (by norm_num) _
  have hm0 : (0 : ℚ) < (m : ℚ) := by exact_mod_cast lt_of_lt_of_le (by norm_num) h1
  have hx : (0 : ℚ) < (m : ℚ) * 2 ^ e := mul_pos hm0 hpow
  have hb1 : (2 : ℚ) ^ (e + 52) ≤ (m : ℚ) * 2 ^ e := by
    calc (2 : ℚ) ^ (e + 52) = (2 : ℚ) ^ (52 : ℤ) * 2 ^ e := by
          rw [← zpow_add₀ (two_ne_zero)]
          congr 1
          ring
      _ ≤ (m : ℚ) * 2 ^ e := by
          apply mul_le_mul_of_nonneg_right _ hpow.le
          calc (2 : ℚ) ^ (52 : ℤ) = (((2 : ℤ) ^ 52 : ℤ) : ℚ) := by norm_num
            _ ≤ (m : ℚ) := by exact_mod_cast h1
  have hb2 : (m : ℚ) * 2 ^ e < (2 : ℚ) ^ (e + 53) := by
    calc (m : ℚ) * 2 ^ e < (2 : ℚ) ^ (53 : ℤ) * 2 ^ e := by
          apply mul_lt_mul_of_pos_right _ hpow
          calc (m : ℚ) < (((2 : ℤ) ^ 53 : ℤ) : ℚ) := by exact_mod_cast h2
            _ = (2 : ℚ) ^ (53 : ℤ) := by norm_num
      _ = (2 : ℚ) ^ (e + 53) := by
          rw [← zpow_add₀ (two_ne_zero)]
          congr 1
          ring
  have hlog : Int.log 2 ((m : ℚ) * 2 ^ e) = e + 52 := log_eq_of_binade hx hb1 hb2
  have he : Int.log 2 ((m : ℚ) * 2 ^ e) - 52 = e := by omega
  rw [roundF_pos_def _ hx, he]
  have hy : (m : ℚ) * 2 ^ e / 2 ^ e = (m : ℚ) := by
    field_simp
  rw [hy, roundMantissa_intCast]

/-- Negation preserves representability. -/
theorem FpRep_neg {x : ℚ} (h : FpRep x) : FpRep (-x) := by
  rcases h with h0 | ⟨m, e, h1, h2, h3⟩
  · left
    rw [h0, neg_zero]
  · right
    exact ⟨-m, e, by simpa using h1, by simpa using h2, by rw [h3]; push_cast; ring⟩

/-- Rounding fixes every representable rational. -/
theorem roundF_fix {x : ℚ} (h : FpRep x) : roundF x = x := by
  rcases h with h0 | ⟨m, e, h1, h2, h3⟩
  · rw [h0, roundF_zero]
  · rcases lt_trichotomy m 0 with hm | hm | hm
    · have hmn1 : (2 : ℤ) ^ 52 ≤ -m := by
        rw [abs_of_neg hm] at h1
        omega
      have hmn2 : -m < (2 : ℤ) ^ 53 := by
        rw [abs_of_neg hm] at h2
        omega
      have hfix := roundF_fix_pos (-m) e hmn1 hmn2
      have hxe : x = -(((-m : ℤ) : ℚ) * 2 ^ e) := by
        rw [h3]
        push_cast
        ring
      rw [hxe, roundF_neg, hfix]
    · rw [hm] at h1
      simp at h1
    · have h1' : (2 : ℤ) ^ 52 ≤ m := by
        rw [abs_of_pos hm] at h1
        exact h1
      have h2' : m < (2 : ℤ) ^ 53 := by
        rw [abs_of_pos hm] at h2
        exact h2
      rw [h3]
      exact roundF_fix_pos m e h1' h2'

/-- Every rounding output is representable. -/
theorem FpRep_roundF_pos (x : ℚ) (hx : 0 < x) : FpRep (roundF x) := by
  rw [roundF_pos_def x hx]
  obtain ⟨hlo, hhi⟩ := scaledMantissa_bounds x hx
  have hq1 : (2 : ℤ) ^ 52 ≤ ⌊x / 2 ^ (Int.log 2 x - 52)⌋ := by
    apply Int.le_floor.mpr
    calc (((2 : ℤ) ^ 52 : ℤ) : ℚ) = (2 : ℚ) ^ (52 : ℤ) := by norm_num
      _ ≤ _ := hlo
  have hq2 : ⌊x / 2 ^ (Int.log 2 x - 52)⌋ < (2 : ℤ) ^ 53 := by
    have ha : ((⌊x / 2 ^ (Int.log 2 x - 52)⌋ : ℤ) : ℚ) < (2 : ℚ) ^ (53 : ℤ) :=
      lt_of_le_of_lt (Int.floor_le _) hhi
    have hb : ((2 : ℚ) ^ (53 : ℤ)) = (((2 : ℤ) ^ 53 : ℤ) : ℚ) := by norm_num
    rw [hb] at ha
    exact_mod_cast ha
  obtain ⟨hrm1, hrm2⟩ := roundMantissa_bounds (x / 2 ^ (Int.log 2 x - 52))
  rcases lt_or_eq_of_le (by omega :
      roundMantissa (x / 2 ^ (Int.log 2 x - 52)) ≤ (2 : ℤ) ^ 53) with hlt | heq
  · right
    refine ⟨roundMantissa (x / 2 ^ (Int.log 2 x - 52)), Int.log 2 x - 52, ?_, ?_, rfl⟩
    · rw [abs_of_nonneg (by omega)]
      omega
    · rw [abs_of_nonneg (by omega)]
      exact hlt
  · right
    refine ⟨2 ^ 52, Int.log 2 x - 52 + 1, by norm_num, by norm_num, ?_⟩
    rw [heq]
    push_cast
    rw [zpow_add₀ (two_ne_zero)]
    ring

/-- Representability of every rounding output, all signs. -/
theorem FpRep_roundF (x : ℚ) : FpRep (roundF x) := by
  rcases lt_trichotomy x 0 with hx | hx | hx
  · have h := FpRep_roundF_pos (-x) (by linarith)
    rw [roundF_neg] at h
    have := FpRep_neg h
    rwa [neg_neg] at this
  · left
    rw [hx, roundF_zero]
  · exact FpRep_roundF_pos x hx

/-- Evaluation of the rounding of a positive rational that lies strictly
below the midpoint of its enclosing mantissa step: round down. -/
theorem roundF_eq_down (x : ℚ) (e q : ℤ) (hx : 0 < x)
    (hb1 : (2 : ℚ) ^ (e + 52) ≤ x) (hb2 : x < (2 : ℚ) ^ (e + 53))
    (hq1 : (q : ℚ) * 2 ^ e ≤ x) (hq2 : x < ((q : ℚ) + 1/2) * 2 ^ e) :
    roundF x = (q : ℚ) * 2 ^ e := by
  have hlog : Int.log 2 x = e + 52 := log_eq_of_binade hx hb1 hb2
  have he : Int.log 2 x - 52 = e := by omega
  have hpow : (0 : ℚ) < 2 ^ e := zpow_pos (by norm_num) _
  rw [roundF_pos_def x hx, he]
  have hfloor : ⌊x / 2 ^ e⌋ = q := by
    rw [Int.floor_eq_iff]
    constructor
    · rw [le_div_iff₀ hpow]
      exact hq1
    · rw [div_lt_iff₀ hpow]
      have hstep : ((q : ℚ) + 1/2) * 2 ^ e ≤ ((q : ℚ) + 1) * 2 ^ e :=
        mul_le_mul_of_nonneg_right (by linarith) hpow.le
      linarith
  have hf : x / 2 ^ e - ((⌊x / 2 ^ e⌋ : ℤ) : ℚ) < 1/2 := by
    rw [hfloor, sub_lt_iff_lt_add, div_lt_iff₀ hpow]
    calc x < ((q : ℚ) + 1/2) * 2 ^ e := hq2
      _ = (1/2 + (q : ℚ)) * 2 ^ e := by ring
  rw [roundMantissa_lt_half hf, hfloor]

/-- Evaluation of the rounding of a positive rational sitting exactly on
the midpoint above an odd mantissa: ties to even round up. -/
theorem roundF_eq_tie_odd (x : ℚ) (e q : ℤ) (hx : 0 < x)
    (hb1 : (2 : ℚ) ^ (e + 52) ≤ x) (hb2 : x < (2 : ℚ) ^ (e + 53))
    (heq : x = ((q : ℚ) + 1/2) * 2 ^ e) (hodd : q % 2 = 1) :
    roundF x = ((q : ℚ) + 1) * 2 ^ e := by
  have hlog : Int.log 2 x = e + 52 := log_eq_of_binade hx hb1 hb2
  have he : Int.log 2 x - 52 = e := by omega
  have hpow : (0 : ℚ) < 2 ^ e := zpow_pos (by norm_num) _
  rw [roundF_pos_def x hx, he]
  have hy : x / 2 ^ e = (q : ℚ) + 1/2 := by
    rw [heq]
    field_simp
    ring
  have hfloor : ⌊x / 2 ^ e⌋ = q := by
    rw [Int.floor_eq_iff, hy]
    constructor
    · linarith
    · linarith
  have hf : x / 2 ^ e - ((⌊x / 2 ^ e⌋ : ℤ) : ℚ) = 1/2 := by
    rw [hfloor, hy]
    ring
  rw [roundMantissa_half_odd hf (by omega), hfloor]
  push_cast
  ring

/-- The float decrement is skipped exactly on non-positive values. -/
theorem lambdaStepF_frozen (rate l : ℚ) (h : l ≤ 0) :
    lambdaStepF rate l = l := by
  simp only [lambdaStepF]
  rw [if_neg (not_lt.mpr h)]

/-- One float decrement from a representable value with a nonnegative rate
never increases the value: the exact difference is at most the value, and
the rounding is monotone with the value itself a fixed point. -/
theorem lambdaStepF_le (rate l : ℚ) (hrep : FpRep l) (hr : 0 ≤ rate) :
    lambdaStepF rate l ≤ l := by
  simp only [lambdaStepF]
  split
  · calc floatSub l rate = roundF (l - rate) := rfl
      _ ≤ roundF l := roundF_mono (by linarith)
      _ = l := roundF_fix hrep
  · exact le_refl l

/-- One float decrement preserves representability. -/
theorem lambdaStepF_rep (rate l : ℚ) (h : FpRep l) : FpRep (lambdaStepF rate l) := by
  simp only [lambdaStepF]
  split
  · exact FpRep_roundF _
  · exact h

/-- Every value of the float lambda_ds sequence is representable. -/
theorem lambdaAfterF_rep (initial rate : ℚ) (h : FpRep initial) :
    ∀ n, FpRep (lambdaAfterF initial rate n)
  | 0 => h
  | n + 1 => lambdaStepF_rep rate _ (lambdaAfterF_rep initial rate h n)

/-- Claim C1 (code bug evidence): the generator-phase call of Solver.train
(line 136) leaves x_refs at its default None, and compute_g_loss
unconditionally executes x_ref, x_ref2 = x_refs, which raises TypeError;
the call therefore never returns a loss. -/
theorem g_loss_x_refs_none_raises (env : TorchEnv) (nets : Nets) (args : Args)
    (x_real : Tensor) (y_org y_trg : ℕ) (z_trg z_trg2 : Tensor)
    (masks : Option Tensor) :
    compute_g_loss env nets args x_real y_org y_trg (some [z_trg, z_trg2]) none masks
      = Except.error "TypeError: cannot unpack non-iterable NoneType object" :=
  rfl

/-- Claim C2: compute_d_loss fails fast with the configuration assert,
independently of the networks, exactly when not precisely one of z_trg and
x_ref is supplied; when exactly one is supplied it returns a result. -/
theorem d_loss_style_source_exclusive (env : TorchEnv) (nets : Nets) (args : Args)
    (x_real : Tensor) (y_org y_trg : ℕ) (z_trg x_ref masks : Option Tensor) :
    ((z_trg.isNone != x_ref.isNone) = false →
      compute_d_loss env nets args x_real y_org y_trg z_trg x_ref masks
        = Except.error "assert (z_trg is None) != (x_ref is None)") ∧
    ((z_trg.isNone != x_ref.isNone) = true →
      ∃ r, compute_d_loss env nets args x_real y_org y_trg z_trg x_ref masks
        = Except.ok r) := by
  constructor
  · intro hb
    rw [compute_d_loss.eq_def, if_neg]
    simp [hb]
  · intro hb
    rw [compute_d_loss.eq_def, if_pos hb]
    simp only [adv_loss_target_one, adv_loss_target_zero]
    exact ⟨_, rfl⟩

/-- Claim C2 witness: with no style source the assert error is returned; with
only the latent source the call returns a result. -/
theorem d_loss_style_source_exclusive_witness :
    (compute_d_loss envC netsA argsC tC 0 0 none none none
      = Except.error "assert (z_trg is None) != (x_ref is None)") ∧
    (∃ r, compute_d_loss envC netsA argsC tC 0 0 (some tC) none none
      = Except.ok r) :=
  ⟨(d_loss_style_source_exclusive envC netsA argsC tC 0 0 none none none).1 (by decide),
   (d_loss_style_source_exclusive envC netsA argsC tC 0 0 (some tC) none none).2 (by decide)⟩

/-- Claim C3 (code bug evidence): Solver.sample hands the live ensemble
self.nets to the external sampling utilities for every solver, because the
local name nets_ema is bound to self.nets; on any solver whose live and EMA
ensembles differ, the ensemble used is not the EMA one. -/
theorem sample_uses_live_nets :
    (∀ s : Solver, s.sampleEnsemble = s.nets) ∧
    Solver.sampleEnsemble ⟨netsA, netsB⟩ ≠ (Solver.mk netsA netsB).nets_ema := by
  constructor
  · intro s
    rfl
  · intro h
    have h2 : (⟨[0], false⟩ : Tensor) = ⟨[1], false⟩ :=
      congrFun (congrArg Nets.fan_get_heatmap h) tC
    exact absurd h2 (by decide)

/-- Claim C4 counterexample: with 2 batches per epoch, initial lambda_ds 1
and ds_epoch 4, one epoch of training leaves lambda_ds at 1/2, not at the
value 1 - 1 * (1 / 4) = 3/4 demanded by a once-per-epoch decrement. -/
theorem lambda_decay_per_epoch_counterexample :
    lambdaAfterEpochs 1 4 2 1 = 1 - 2 * ((1 : ℚ) / 4) ∧
    lambdaAfterEpochs 1 4 2 1 ≠ 1 - 1 * ((1 : ℚ) / 4) := by
  constructor <;> norm_num [lambdaAfterEpochs, lambdaAfter, lambdaStep]

/-- Claim C4 as amended: the decrement initial / ds_epoch is applied once
per batch iteration, so after k batch iterations (k at most ds_epoch, value
still positive on the way) lambda_ds equals initial - k * (initial /
ds_epoch); after e epochs of ipe batches it equals
initial - (ipe * e) * (initial / ds_epoch). -/
theorem lambda_decay_per_batch (initial : ℚ) (d ipe e k : ℕ)
    (h0 : 0 < initial) (hd : 0 < d) (hk : k ≤ d) (he : ipe * e ≤ d) :
    lambdaAfter initial d k = initial - (k : ℚ) * (initial / (d : ℚ)) ∧
    lambdaAfterEpochs initial d ipe e
      = initial - ((ipe * e : ℕ) : ℚ) * (initial / (d : ℚ)) := by
  constructor
  · rw [lambdaAfter_eq initial d h0.le hd k, min_eq_left hk]
  · rw [lambdaAfterEpochs, lambdaAfter_eq initial d h0.le hd (ipe * e),
      min_eq_left he]

/-- Claim C4 amended witness: concrete evaluation of the per-batch decay at
initial 1, ds_epoch 4, after 3 batches and after 1 epoch of 2 batches. -/
theorem lambda_decay_per_batch_witness :
    lambdaAfter 1 4 3 = 1 - (3 : ℚ) * ((1 : ℚ) / (4 : ℚ)) ∧
    lambdaAfterEpochs 1 4 2 1 = 1 - ((2 * 1 : ℕ) : ℚ) * ((1 : ℚ) / (4 : ℚ)) :=
  lambda_decay_per_batch 1 4 2 1 3 (by norm_num) (by norm_num) (by norm_num)
    (by norm_num)

/-- Claim C5 counterexample: under the binary64 float semantics of the
source, with initial lambda_ds 1.0 and ds_epoch 3 the rate is the rounded
quotient 6004799503160661 * 2^-54, three decrements leave the strictly
positive residue 2^-53 which passes the > 0 guard, and the fourth decrement
lands at -6004799503160659 / 2^54 (about -0.3333333333333333), strictly
below zero; the guard then freezes the negative value. -/
theorem lambda_ds_below_zero_counterexample :
    0 < lambdaAfterF 1 (floatDiv 1 3) 3 ∧
    lambdaAfterF 1 (floatDiv 1 3) 4 < 0 ∧
    lambdaAfterF 1 (floatDiv 1 3) 4 = -(6004799503160659 / 2 ^ 54) ∧
    lambdaAfterF 1 (floatDiv 1 3) 5 = lambdaAfterF 1 (floatDiv 1 3) 4 := by
  have hrate : floatDiv 1 3 = 6004799503160661 * (2 : ℚ) ^ (-54 : ℤ) := by
    unfold floatDiv
    rw [roundF_eq_down ((1 : ℚ) / 3) (-54) 6004799503160661 (by norm_num)
      (by norm_num) (by norm_num) (by norm_num) (by norm_num)]
    norm_num
  rw [hrate]
  have h1 : lambdaAfterF 1 (6004799503160661 * (2 : ℚ) ^ (-54 : ℤ)) 1
      = 6004799503160662 * (2 : ℚ) ^ (-53 : ℤ) := by
    have harg : (1 : ℚ) - 6004799503160661 * (2 : ℚ) ^ (-54 : ℤ)
        = 12009599006321323 * (2 : ℚ) ^ (-54 : ℤ) := by
      norm_num
    have hround := roundF_eq_tie_odd (12009599006321323 * (2 : ℚ) ^ (-54 : ℤ))
      (-53) 6004799503160661 (by norm_num) (by norm_num) (by norm_num)
      (by norm_num) (by decide)
    simp only [lambdaAfterF, lambdaStepF, floatSub]
    rw [if_pos (by norm_num : (1 : ℚ) > 0), harg, hround]
    norm_num
  have h2 : lambdaAfterF 1 (6004799503160661 * (2 : ℚ) ^ (-54 : ℤ)) 2
      = 6004799503160663 * (2 : ℚ) ^ (-54 : ℤ) := by
    have hstep : lambdaAfterF 1 (6004799503160661 * (2 : ℚ) ^ (-54 : ℤ)) 2
        = lambdaStepF (6004799503160661 * (2 : ℚ) ^ (-54 : ℤ))
            (lambdaAfterF 1 (6004799503160661 * (2 : ℚ) ^ (-54 : ℤ)) 1) := rfl
    rw [hstep, h1]
    simp only [lambdaStepF, floatSub]
    rw [if_pos (by norm_num : 6004799503160662 * (2 : ℚ) ^ (-53 : ℤ) > 0)]
    have harg : 6004799503160662 * (2 : ℚ) ^ (-53 : ℤ)
        - 6004799503160661 * (2 : ℚ) ^ (-54 : ℤ)
        = ((6004799503160663 : ℤ) : ℚ) * (2 : ℚ) ^ (-54 : ℤ) := by
      push_cast
      norm_num
    rw [harg, roundF_fix_pos 6004799503160663 (-54) (by norm_num) (by norm_num)]
    norm_num
  have h3 : lambdaAfterF 1 (6004799503160661 * (2 : ℚ) ^ (-54 : ℤ)) 3
      = (2 : ℚ) ^ (-53 : ℤ) := by
    have hstep : lambdaAfterF 1 (6004799503160661 * (2 : ℚ) ^ (-54 : ℤ)) 3
        = lambdaStepF (6004799503160661 * (2 : ℚ) ^ (-54 : ℤ))
            (lambdaAfterF 1 (6004799503160661 * (2 : ℚ) ^ (-54 : ℤ)) 2) := rfl
    rw [hstep, h2]
    simp only [lambdaStepF, floatSub]
    rw [if_pos (by norm_num : 6004799503160663 * (2 : ℚ) ^ (-54 : ℤ) > 0)]
    have harg : 6004799503160663 * (2 : ℚ) ^ (-54 : ℤ)
        - 6004799503160661 * (2 : ℚ) ^ (-54 : ℤ)
        = ((4503599627370496 : ℤ) : ℚ) * (2 : ℚ) ^ (-105 : ℤ) := by
      push_cast
      norm_num
    rw [harg, roundF_fix_pos 4503599627370496 (-105) (by norm_num) (by norm_num)]
    norm_num
  have h4 : lambdaAfterF 1 (6004799503160661 * (2 : ℚ) ^ (-54 : ℤ)) 4
      = -(6004799503160659 * (2 : ℚ) ^ (-54 : ℤ)) := by
    have hstep : lambdaAfterF 1 (6004799503160661 * (2 : ℚ) ^ (-54 : ℤ)) 4
        = lambdaStepF (6004799503160661 * (2 : ℚ) ^ (-54 : ℤ))
            (lambdaAfterF 1 (6004799503160661 * (2 : ℚ) ^ (-54 : ℤ)) 3) := rfl
    rw [hstep, h3]
    simp only [lambdaStepF, floatSub]
    rw [if_pos (by norm_num : (2 : ℚ) ^ (-53 : ℤ) > 0)]
    have harg : (2 : ℚ) ^ (-53 : ℤ) - 6004799503160661 * (2 : ℚ) ^ (-54 : ℤ)
        = -(((6004799503160659 : ℤ) : ℚ) * (2 : ℚ) ^ (-54 : ℤ)) := by
      push_cast
      norm_num
    rw [harg, roundF_neg, roundF_fix_pos 6004799503160659 (-54) (by norm_num)
      (by norm_num)]
    norm_num
  have h5 : lambdaAfterF 1 (6004799503160661 * (2 : ℚ) ^ (-54 : ℤ)) 5
      = lambdaAfterF 1 (6004799503160661 * (2 : ℚ) ^ (-54 : ℤ)) 4 := by
    have hstep : lambdaAfterF 1 (6004799503160661 * (2 : ℚ) ^ (-54 : ℤ)) 5
        = lambdaStepF (6004799503160661 * (2 : ℚ) ^ (-54 : ℤ))
            (lambdaAfterF 1 (6004799503160661 * (2 : ℚ) ^ (-54 : ℤ)) 4) := rfl
    rw [hstep, h4]
    exact lambdaStepF_frozen _ _ (by norm_num)
  refine ⟨?_, ?_, ?_, h5⟩
  · rw [h3]
    norm_num
  · rw [h4]
    norm_num
  · rw [h4]
    norm_num

/-- Claim C5 as amended: under the float semantics of the source the
lambda_ds sequence is monotonically non-increasing and the decrement is
applied only while the value is strictly positive (a non-positive value is
frozen for the rest of the run); however the value does not stay at or
above zero, since float rounding can leave a strictly positive residue
whose final decrement lands strictly below zero. -/
theorem lambda_ds_float_monotone_guarded (initial rate : ℚ)
    (h0 : FpRep initial) (hr : 0 ≤ rate) (n : ℕ) :
    lambdaAfterF initial rate (n + 1) ≤ lambdaAfterF initial rate n ∧
    (lambdaAfterF initial rate n ≤ 0 →
      lambdaAfterF initial rate (n + 1) = lambdaAfterF initial rate n) := by
  constructor
  · exact lambdaStepF_le rate _ (lambdaAfterF_rep initial rate h0 n) hr
  · intro hle
    exact lambdaStepF_frozen rate _ hle

/-- Claim C5 amended witness: the monotone and guarded-decrement facts
evaluated at the representable initial value 1 with rate 1/4 at step 1. -/
theorem lambda_ds_float_monotone_guarded_witness :
    lambdaAfterF 1 (1/4) 2 ≤ lambdaAfterF 1 (1/4) 1 ∧
    (lambdaAfterF 1 (1/4) 1 ≤ 0 →
      lambdaAfterF 1 (1/4) 2 = lambdaAfterF 1 (1/4) 1) :=
  lambda_ds_float_monotone_guarded 1 (1/4)
    (Or.inr ⟨2 ^ 52, -52, by norm_num, by norm_num, by norm_num⟩)
    (by norm_num) 1

/-- Claim C6: one moving_average call with decay 0.999 leaves every live
parameter unchanged and replaces each shadow parameter with
0.999 * shadow + (1 - 0.999) * live. -/
theorem moving_average_shadow_update (live shadow : List ℚ) (i : ℕ)
    (h1 : i < live.length) (h2 : i < shadow.length) :
    (moving_average live shadow 0.999).1 = live ∧
    ((moving_average live shadow 0.999).2).get
        ⟨i, by simp [moving_average]; omega⟩
      = 0.999 * shadow.get ⟨i, h2⟩ + (1 - 0.999) * live.get ⟨i, h1⟩ := by
  constructor
  · rfl
  · simp [moving_average, torchLerp, List.get_eq_getElem]
    ring

/-- Claim C6 witness: concrete evaluation on live parameters [1, 2] and
shadow parameters [3, 4] at index 0. -/
theorem moving_average_shadow_update_witness :
    (moving_average [1, 2] [3, 4] 0.999).1 = [1, 2] ∧
    ((moving_average [1, 2] [3, 4] 0.999).2).get ⟨0, by decide⟩
      = 0.999 * (([3, 4] : List ℚ).get ⟨0, by decide⟩)
        + (1 - 0.999) * (([1, 2] : List ℚ).get ⟨0, by decide⟩) :=
  moving_average_shadow_update [1, 2] [3, 4] 0 (by decide) (by decide)

/-- Claim C7: whenever compute_g_loss returns, the returned total equals
the adversarial term plus lambda_sty times the style term minus lambda_ds
times the diversity term plus lambda_cyc times the cycle term of the
returned breakdown record, whose four fields are exactly adv, sty, ds,
cyc. -/
theorem g_loss_total_formula (env : TorchEnv) (nets : Nets) (args : Args)
    (x_real : Tensor) (y_org y_trg : ℕ) (z_trgs x_refs : Option (List Tensor))
    (masks : Option Tensor) (L : ℚ) (gl : GLosses)
    (h : compute_g_loss env nets args x_real y_org y_trg z_trgs x_refs masks
      = Except.ok (L, gl)) :
    L = gl.adv + args.lambda_sty * gl.sty - args.lambda_ds * gl.ds
      + args.lambda_cyc * gl.cyc := by
  rcases z_trgs with _ | zl
  · simp [compute_g_loss] at h
  rcases zl with _ | ⟨z1, zl⟩
  · simp [compute_g_loss] at h
  rcases zl with _ | ⟨z2, zl⟩
  · simp [compute_g_loss] at h
  rcases zl with _ | ⟨z3, zl⟩
  swap
  · simp [compute_g_loss] at h
  rcases x_refs with _ | xl
  · simp [compute_g_loss] at h
  rcases xl with _ | ⟨r1, xl⟩
  · simp [compute_g_loss] at h
  rcases xl with _ | ⟨r2, xl⟩
  · simp [compute_g_loss] at h
  rcases xl with _ | ⟨r3, xl⟩
  swap
  · simp [compute_g_loss] at h
  simp only [compute_g_loss, compute_g_loss_body, adv_loss_target_one,
    Except.ok.injEq, Prod.mk.injEq] at h
  obtain ⟨hL, hgl⟩ := h
  subst hL
  subst hgl
  rfl

/-- Claim C7 witness: concrete evaluation with constant networks, where the
total 1 equals 1 + 0 * 0 - 0 * 0 + 0 * 1. -/
theorem g_loss_total_formula_witness :
    (1 : ℚ) = (GLosses.mk 1 0 0 1).adv + argsC.lambda_sty * (GLosses.mk 1 0 0 1).sty
      - argsC.lambda_ds * (GLosses.mk 1 0 0 1).ds
      + argsC.lambda_cyc * (GLosses.mk 1 0 0 1).cyc :=
  g_loss_total_formula envC netsA argsC tC 0 0 (some [tC, tC]) (some [tC, tC])
    none 1 ⟨1, 0, 0, 1⟩ (by
      simp only [compute_g_loss, compute_g_loss_body, adv_loss_target_one]
      norm_num [binary_cross_entropy_with_logits, envC, netsA, constNets, tC,
        argsC, Tensor.sub, Tensor.abs, Tensor.mean, listMean, full_like,
        Tensor.detach])

/-- Claim C8: with both latent vectors supplied, compute_g_loss returns, its
diversity term is the mean absolute difference of two fakes generated from
the same source image x_real under the two style codes mapped from the two
latent vectors, the second fake is detached (its gradient flag is false),
and the diversity term is nonnegative. -/
theorem g_loss_diversity_term (env : TorchEnv) (nets : Nets) (args : Args)
    (x_real : Tensor) (y_org y_trg : ℕ) (z_trg z_trg2 x_ref x_ref2 : Tensor)
    (masks : Option Tensor) :
    ∃ L gl,
      compute_g_loss env nets args x_real y_org y_trg (some [z_trg, z_trg2])
          (some [x_ref, x_ref2]) masks = Except.ok (L, gl) ∧
      gl.ds = Tensor.mean (Tensor.abs (Tensor.sub
        (nets.generator x_real (nets.mapping_network z_trg y_trg) masks)
        (Tensor.detach (nets.generator x_real (nets.mapping_network z_trg2 y_trg) masks)))) ∧
      0 ≤ gl.ds ∧
      (Tensor.detach (nets.generator x_real (nets.mapping_network z_trg2 y_trg) masks)).requiresGrad
        = false := by
  simp only [compute_g_loss, compute_g_loss_body, adv_loss_target_one]
  exact ⟨_, _, rfl, rfl, absMean_nonneg _, rfl⟩

/-- Claim C9 counterexample: with two batches whose discriminator real
terms are 1 and 3, the mapping emitted at the end of epoch 0 is the one
rebuilt from the final batch (real term 3) and differs from the sum over
the batches of the epoch (real term 4). -/
theorem wandb_accumulation_counterexample :
    wandbEmission 1 0 [batch0C, batch1C]
      = some (buildAllLosses ⟨3, 0, 0⟩ ⟨0, 0, 0, 0⟩ 0) ∧
    wandbEmission 1 0 [batch0C, batch1C]
      ≠ some (accumulatedLossesSpec [batch0C, batch1C]) := by
  refine ⟨rfl, fun h => ?_⟩
  simp [wandbEmission, epochAllLosses, buildAllLosses, accumulatedLossesSpec,
    batch0C, batch1C] at h

/-- Claim C9 as amended: at the end of every epoch whose index is a
multiple of wandb_log, the emitted mapping is the all_losses record rebuilt
on the final batch of the epoch, not an accumulation. -/
theorem wandb_logs_last_batch (wandb_log epoch : ℕ)
    (pre : List (DLosses × GLosses × ℚ)) (d : DLosses) (g : GLosses) (l : ℚ)
    (h : epoch % wandb_log = 0) :
    wandbEmission wandb_log epoch (pre ++ [(d, g, l)])
      = some (buildAllLosses d g l) := by
  unfold wandbEmission epochAllLosses
  rw [if_pos h, List.foldl_append]
  simp

/-- Claim C9 amended witness: concrete evaluation with one earlier batch
and a final batch with real term 3. -/
theorem wandb_logs_last_batch_witness :
    wandbEmission 1 0 ([batch0C] ++ [(⟨3, 0, 0⟩, ⟨0, 0, 0, 0⟩, 0)])
      = some (buildAllLosses ⟨3, 0, 0⟩ ⟨0, 0, 0, 0⟩ 0) :=
  wandb_logs_last_batch 1 0 [batch0C] ⟨3, 0, 0⟩ ⟨0, 0, 0, 0⟩ 0 rfl

/-- Claim C10: in train mode the registered checkpoint handlers persist
exactly the live networks and the optimizers, never the EMA ensemble and
never a file with the EMA name; in the other modes loading reads only the
EMA-named checkpoint file, which train mode never writes. -/
theorem checkpoint_scope_by_mode :
    ((solverCkptios Mode.train).map (fun c => c.group)
      = [ParamGroup.nets, ParamGroup.optims]) ∧
    (∀ step, (saveCheckpoint Mode.train step).map (fun e => e.2.2)
      = [ParamGroup.nets, ParamGroup.optims]) ∧
    (∀ step, "\x7b:06d\x7d_nets_ema.ckpt"
      ∉ (saveCheckpoint Mode.train step).map (fun e => e.1)) ∧
    ((solverCkptios Mode.sample).map (fun c => c.fname_template)
      = ["\x7b:06d\x7d_nets_ema.ckpt"]) ∧
    ((solverCkptios Mode.evaluate).map (fun c => c.fname_template)
      = ["\x7b:06d\x7d_nets_ema.ckpt"]) ∧
    (∀ step, (loadCheckpoint Mode.sample step).map (fun e => e.2.2)
      = [ParamGroup.nets_ema]) := by
  refine ⟨rfl, fun step => rfl, fun step => ?_, rfl, rfl, fun step => rfl⟩
  simp [saveCheckpoint, solverCkptios]

end StarGAN
